import Mathlib

/-!
Verification of the XLF translation generator.

This file gives a shallow embedding of the core logic of the repository:

* `src/src/main.js` — `extractCategory` and the reconciliation core of
  `syncXLFtoSheet` (the full-rewrite variant, main.js lines 311-372),
  with the Google-Sheets I/O abstracted into explicit inputs/outputs:
  the sheet rows are the `sheetData` argument and the written rows are
  the returned list.
* `src/src/xlf-exporter.js` — the pure core of `exportXLF` (the XML
  serialization of the computed trans-units is out of scope; the
  embedding returns the list of trans-units and the list of maxwidth
  violations) and `getAvailableLanguages`.
* `src/src/config.js` — the `LANGUAGES` map and `BASE_COLUMNS`.
* the XLF parser (`parseXLF`) — embedded over a structure describing the
  already-XML-parsed document shape (xml2js output), since XML parsing
  itself is an external collaborator.

JavaScript dynamic values that matter to the logic (the `active` cell,
which may hold a boolean, a string, a number or null) are modelled by
`JsValue`; JavaScript `Map`s and plain objects with dynamic keys are
modelled by association lists with JS insertion-order semantics
(`assocSet` replaces in place, appends if absent).
-/

namespace XlfGen

/-- Decidable equality for `Except`, so that concrete runs of the
fallible operations can be checked by `decide`. -/
instance {ε α : Type} [DecidableEq ε] [DecidableEq α] : DecidableEq (Except ε α) := fun x y =>
  match x, y with
  | .error e, .error f =>
      if h : e = f then isTrue (congrArg Except.error h)
      else isFalse (fun hc => h (Except.error.inj hc))
  | .error _, .ok _ => isFalse (fun hc => Except.noConfusion hc)
  | .ok _, .error _ => isFalse (fun hc => Except.noConfusion hc)
  | .ok a, .ok b =>
      if h : a = b then isTrue (congrArg Except.ok h)
      else isFalse (fun hc => h (Except.ok.inj hc))

/-- A dynamically-typed JavaScript value as it can appear in a sheet cell
(restricted to the shapes the program actually stores or tests: booleans,
strings, integer numbers, and null/undefined). -/
inductive JsValue where
  | bool (b : Bool)
  | str (s : String)
  | num (n : Int)
  | null
deriving DecidableEq, Repr

/-- JavaScript truthiness for `JsValue`: `false`, the empty string, the
number 0 and null/undefined are falsy, everything else is truthy. -/
def JsValue.truthy : JsValue → Bool
  | .bool b => b
  | .str s => s ≠ ""
  | .num n => n ≠ 0
  | .null => false

/-- Lookup in a JS `Map` / object modelled as an association list
(first entry with the key; keys are unique by construction). -/
def assocGet (m : List (String × α)) (k : String) : Option α :=
  (m.find? (fun p => p.1 = k)).map Prod.snd

/-- `Map.set` / property assignment on a JS object modelled as an
association list: replaces the value in place if the key is present,
otherwise appends the new entry (JS insertion-order semantics). -/
def assocSet (m : List (String × α)) (k : String) (v : α) : List (String × α) :=
  match m with
  | [] => [(k, v)]
  | (k', v') :: rest => if k' = k then (k, v) :: rest else (k', v') :: assocSet rest k v

/-- A translation segment as produced by `parseXLF` (all fields default
to the empty string when the corresponding XML attribute is absent). -/
structure Segment where
  id : String
  source : String
  maxwidth : String
  sizeUnit : String
  note : String
deriving DecidableEq, Repr

/-- A sheet row as handled by `syncXLFtoSheet` and `exportXLF`: the base
columns `id`, `category`, `maxwidth`, `size-unit`, `English`, the system
column `active`, and the dynamic language columns collected in
`translations` (an association list from column name to cell text). -/
structure Row where
  id : String
  category : String
  maxwidth : String
  sizeUnit : String
  English : String
  active : JsValue
  translations : List (String × String)
deriving DecidableEq, Repr

/-- Dynamic property access `row[lang]` for a language column. -/
def Row.getLang (r : Row) (lang : String) : Option String :=
  assocGet r.translations lang

/-- The `LANGUAGES` map of config.js, as an association list in the
configured (JS object insertion) order. -/
def LANGUAGES : List (String × String) :=
  [("Spanish", "es"), ("French", "fr"), ("Portuguese", "pt_BR"), ("German", "de"),
   ("Italian", "it"), ("Turkish", "tr"), ("Dutch", "nl_NL"), ("Greek", "el"),
   ("Arabic", "ar"), ("Indonesian", "id"), ("Japanese", "ja"), ("Thai", "th"),
   ("Swedish", "sv"), ("Danish", "da"), ("Finnish", "fi"), ("Norwegian", "no"),
   ("Korean", "ko"), ("Croatian", "hr"), ("Vietnamese", "vi"), ("Bulgarian", "bg"),
   ("Polish", "pl"), ("Czech", "cs"), ("Romanian", "ro"), ("Ukrainian", "uk"),
   ("Hungarian", "hu"), ("Slovenian", "sl"), ("Slovak", "sk"), ("Hebrew", "he")]

/-- `BASE_COLUMNS` of config.js. -/
def BASE_COLUMNS : List String := ["id", "maxwidth", "size-unit", "English"]

/-- JavaScript `String.prototype.split` with the one-character separator
`'.'`, over the character list of the string: always returns at least one
(possibly empty) piece, empty pieces between consecutive separators. -/
def splitOnDot : List Char → List (List Char)
  | [] => [[]]
  | c :: cs =>
      if c = '.' then [] :: splitOnDot cs
      else
        match splitOnDot cs with
        | [] => [[c]]
        | t :: ts => (c :: t) :: ts

/-- `extractCategory` of main.js: empty string for a falsy/non-string id,
otherwise `id.split('.')[0] || ''`. -/
def extractCategory (id : String) : String :=
  if id = "" then ""
  else
    match (splitOnDot id.toList).head? with
    | some p => String.mk p
    | none => ""

/-- JavaScript `String.prototype.trim` over a character list: drop
whitespace from both ends. -/
def jsTrimList (cs : List Char) : List Char :=
  ((cs.dropWhile Char.isWhitespace).reverse.dropWhile Char.isWhitespace).reverse

/-- JavaScript `String.prototype.trim`. -/
def jsTrim (s : String) : String := String.mk (jsTrimList s.toList)

/-- Reads a run of decimal digits into a number; `none` as soon as a
non-digit appears. -/
def digitsToNat : List Char → Nat → Option Nat
  | [], acc => some acc
  | c :: cs, acc => if c.isDigit then digitsToNat cs (acc * 10 + (c.toNat - 48)) else none

/-- All-digit character list to a number; `none` for the empty list. -/
def charsToNat? (cs : List Char) : Option Nat :=
  match cs with
  | [] => none
  | _ => digitsToNat cs 0

/-- JavaScript `Number(string)` conversion, modelled on the domain the
program stores in `maxwidth` cells (optional-sign decimal integer
literals with surrounding whitespace; the empty/whitespace-only string
converts to 0). `none` stands for `NaN`; fractional, exponent and hex
literals are outside the modelled domain. -/
def jsNumber (s : String) : Option Int :=
  match jsTrimList s.toList with
  | [] => some 0
  | c :: cs =>
      if c = '-' then (charsToNat? cs).map (fun n => -(n : Int))
      else if c = '+' then (charsToNat? cs).map (fun n => (n : Int))
      else (charsToNat? (c :: cs)).map (fun n => (n : Int))

/-- The active-record filter of exportXLF (xlf-exporter.js lines 21-28):
falsy values are inactive, and so are the literal strings "false",
"FALSE", "0" (and boolean false, already falsy). -/
def isActiveValue (v : JsValue) : Bool :=
  if ¬ v.truthy then false
  else if v = .bool false ∨ v = .str "false" ∨ v = .str "FALSE" ∨ v = .str "0" then false
  else true

/-- The translation-presence filter of exportXLF (line 33):
`row[targetLang] && row[targetLang].trim() !== ''`. -/
def hasNonEmptyTranslation (lang : String) (r : Row) : Bool :=
  match r.getLang lang with
  | none => false
  | some t => t ≠ "" && jsTrim t ≠ ""

/-- The maxwidth test of exportXLF (lines 36-45): the check runs only
when `row.maxwidth` is truthy (non-empty) and numeric; it trips when the
translation is a present string longer than the parsed maxwidth. -/
def violatesMaxwidth (lang : String) (r : Row) : Bool :=
  if r.maxwidth ≠ "" then
    match jsNumber r.maxwidth with
    | some max =>
        match r.getLang lang with
        | some t => decide ((t.length : Int) > max)
        | none => false
    | none => false
  else false

/-- One entry of the exported `trans-unit` list (xlf-exporter.js lines
49-60); `sizeUnit` stands for the `size-unit` attribute. -/
structure TransUnit where
  id : String
  maxwidth : String
  sizeUnit : String
  source : String
  target : String
deriving DecidableEq, Repr

/-- One entry of the `maxwidthErrors` list (xlf-exporter.js lines 39-43). -/
structure Violation where
  id : String
  value : String
  maxwidth : String
deriving DecidableEq, Repr

/-- Builds the trans-unit for an exported row (lines 49-60); at the call
site the translation is present, so `getD ""` never fires. -/
def mkTransUnit (lang : String) (r : Row) : TransUnit :=
  { id := r.id
    maxwidth := r.maxwidth
    sizeUnit := r.sizeUnit
    source := r.English
    target := (r.getLang lang).getD "" }

/-- Builds the violation entry pushed at lines 39-43. -/
def mkViolation (lang : String) (r : Row) : Violation :=
  { id := r.id, value := (r.getLang lang).getD "", maxwidth := r.maxwidth }

/-- The maxwidth filter-with-collection of exportXLF (lines 34-60): rows
that trip the maxwidth check are turned into violations, the rest into
trans-units, preserving row order on both sides. -/
def collectUnits (lang : String) : List Row → List TransUnit × List Violation
  | [] => ([], [])
  | r :: rs =>
      let rest := collectUnits lang rs
      if violatesMaxwidth lang r then (rest.1, mkViolation lang r :: rest.2)
      else (mkTransUnit lang r :: rest.1, rest.2)

/-- The pure core of `exportXLF` (xlf-exporter.js lines 12-95): resolve
the language code, filter to active rows, filter to rows with a
non-empty translation, then split into trans-units and maxwidth
violations. The XML serialization of the trans-units is out of scope;
`.error` models the thrown `Unknown target language` error. -/
def exportXLF (targetLang : String) (sheetData : List Row) :
    Except String (List TransUnit × List Violation) :=
  match assocGet LANGUAGES targetLang with
  | none => .error ("Unknown target language: " ++ targetLang)
  | some _ =>
      let activeRecords := sheetData.filter (fun r => isActiveValue r.active)
      let withTranslation := activeRecords.filter (fun r => hasNonEmptyTranslation targetLang r)
      .ok (collectUnits targetLang withTranslation)

/-- `getAvailableLanguages` of xlf-exporter.js (lines 103-111): `none`
models calling it with `undefined` headers. -/
def getAvailableLanguages (sheetHeaders : Option (List String)) : List String :=
  match sheetHeaders with
  | none => LANGUAGES.map Prod.fst
  | some headers => (LANGUAGES.map Prod.fst).filter (fun lang => headers.contains lang)

/-- A `trans-unit` element as xml2js hands it to parseXLF after
`mergeAttrs`: every field may be absent. -/
structure RawUnit where
  id : Option String
  source : Option String
  maxwidth : Option String
  sizeUnit : Option String
  note : Option String
deriving DecidableEq, Repr

/-- The `body` element shape parseXLF inspects: its direct `trans-unit`
children (empty list when absent), and, when the nested chain
`body.xliff.file.body` exists, that inner body's `trans-unit` children. -/
structure XlfBody where
  transUnits : List RawUnit
  nested : Option (List RawUnit)
deriving DecidableEq, Repr

/-- The xml2js parse result shape parseXLF inspects: presence of the
`xliff` and `file` elements, the `file` attributes, and the body. -/
structure XlfDoc where
  hasXliff : Bool
  hasFile : Bool
  sourceLanguage : Option String
  targetLanguage : Option String
  original : Option String
  body : Option XlfBody
deriving DecidableEq, Repr

/-- The successful return value of parseXLF. -/
structure ParseResult where
  sourceLanguage : Option String
  targetLanguage : Option String
  original : Option String
  segments : List Segment
deriving DecidableEq, Repr

/-- `parseXLF` of the parser module (xlf-parser.js): rejects documents
with a missing `xliff`/`file` element, rejects a source-language other
than `en_US`, then collects the trans-units (preferring the nested
`body.xliff.file.body` when present) into segments, defaulting every
absent field to the empty string. The outer `Failed to parse XLF:`
message wrapping is omitted. -/
def parseXLF (doc : XlfDoc) : Except String ParseResult :=
  if ¬ (doc.hasXliff ∧ doc.hasFile) then
    .error "Invalid XLF format: missing xliff or file element"
  else if doc.sourceLanguage ≠ some "en_US" then
    .error ("Invalid source language: " ++ (doc.sourceLanguage.getD "undefined") ++
      ". Only en_US is supported.")
  else
    let transUnits :=
      match doc.body with
      | none => []
      | some b =>
          match b.nested with
          | some inner => inner
          | none => b.transUnits
    let segments := transUnits.map (fun u =>
      { id := u.id.getD ""
        source := u.source.getD ""
        maxwidth := u.maxwidth.getD ""
        sizeUnit := u.sizeUnit.getD ""
        note := u.note.getD "" : Segment })
    .ok { sourceLanguage := doc.sourceLanguage
          targetLanguage := doc.targetLanguage
          original := doc.original
          segments := segments }

/-- The four sync counters (main.js lines 303-308). -/
structure Stats where
  added : Nat
  updated : Nat
  unchanged : Nat
  deactivated : Nat
deriving DecidableEq, Repr

/-- The `xlfMap` of syncXLFtoSheet (main.js lines 284-287): a JS `Map`
from segment id to segment, built by `Map.set` over the segment list
(last segment wins on a duplicate id, insertion order kept). -/
def xlfMapOf (segments : List Segment) : List (String × Segment) :=
  segments.foldl (fun m seg => assocSet m seg.id seg) []

/-- The `sheetMap` of syncXLFtoSheet (main.js lines 289-294): rows with
a falsy (empty) id are skipped. -/
def sheetMapOf (sheetData : List Row) : List (String × Row) :=
  sheetData.foldl (fun m row => if row.id = "" then m else assocSet m row.id row) []

/-- The new row built for a segment absent from the sheet (main.js lines
316-328): all language columns initialized to the empty string. -/
def newRowOf (languageColumns : List String) (seg : Segment) : Row :=
  { id := seg.id
    category := extractCategory seg.id
    maxwidth := seg.maxwidth
    sizeUnit := seg.sizeUnit
    English := seg.source
    active := .bool true
    translations := languageColumns.map (fun col => (col, "")) }

/-- `languageColumns.forEach(col => updatedRow[col] = '')` (main.js
lines 345-347): every language column set to the empty string, other
columns untouched. -/
def clearLangCols (translations : List (String × String)) (languageColumns : List String) :
    List (String × String) :=
  languageColumns.foldl (fun t col => assocSet t col "") translations

/-- The row written when the English source changed (main.js lines
336-349): source and metadata refreshed, reactivated, translations
cleared. -/
def updatedRowOf (languageColumns : List String) (row : Row) (seg : Segment) : Row :=
  { row with
    English := seg.source
    maxwidth := seg.maxwidth
    sizeUnit := seg.sizeUnit
    active := .bool true
    translations := clearLangCols row.translations languageColumns }

/-- The row written when the English source is unchanged (main.js lines
352-357): metadata refreshed and reactivated, translations untouched. -/
def refreshedRowOf (row : Row) (seg : Segment) : Row :=
  { row with maxwidth := seg.maxwidth, sizeUnit := seg.sizeUnit, active := .bool true }

/-- `{...row, active: false}` (main.js lines 366-369): the row kept in
the sheet with only its liveness flag cleared. -/
def deactivatedRowOf (row : Row) : Row :=
  { row with active := .bool false }

/-- The body of the first sync loop (main.js lines 311-361), one XLF map
entry at a time: a segment absent from the sheet map appends a fresh row
(`added`), a present one with changed English appends the cleared update
(`updated`), otherwise the metadata refresh (`unchanged`). -/
def syncStep (languageColumns : List String) (sheetMap : List (String × Row))
    (acc : List Row × Stats) (p : String × Segment) : List Row × Stats :=
  match assocGet sheetMap p.1 with
  | none =>
      (acc.1 ++ [newRowOf languageColumns p.2],
       { acc.2 with added := acc.2.added + 1 })
  | some existingRow =>
      if existingRow.English ≠ p.2.source then
        (acc.1 ++ [updatedRowOf languageColumns existingRow p.2],
         { acc.2 with updated := acc.2.updated + 1 })
      else
        (acc.1 ++ [refreshedRowOf existingRow p.2],
         { acc.2 with unchanged := acc.2.unchanged + 1 })

/-- The body of the second sync loop (main.js lines 363-372), one sheet
map entry at a time: a row whose id the XLF map lacks is appended with
`active=false` and counted `deactivated` (whether or not it was already
inactive). -/
def deactStep (xlfMap : List (String × Segment)) (acc : List Row × Stats)
    (p : String × Row) : List Row × Stats :=
  if (assocGet xlfMap p.1).isSome then acc
  else
    (acc.1 ++ [deactivatedRowOf p.2],
     { acc.2 with deactivated := acc.2.deactivated + 1 })

/-- The reconciliation core of `syncXLFtoSheet`, full-rewrite variant
(main.js lines 274-390), with the sheet I/O abstracted: `sheetData` is
what `readSheet()` returned, `languageColumns` is what the header
filtering at lines 297-300 produced, and the returned row list is what
`writeSheet` would write (header row aside). The first loop (lines
311-361) processes the XLF segments in `xlfMap` order; the second loop
(lines 363-372) deactivates every sheet row whose id the XLF lacks. -/
def syncXLFtoSheet (segments : List Segment) (sheetData : List Row)
    (languageColumns : List String) : List Row × Stats :=
  let xlfMap := xlfMapOf segments
  let sheetMap := sheetMapOf sheetData
  let step1 := xlfMap.foldl (syncStep languageColumns sheetMap)
    ([], { added := 0, updated := 0, unchanged := 0, deactivated := 0 })
  sheetMap.foldl (deactStep xlfMap) step1

/-! ### Association-list lemmas -/

theorem assocGet_nil {α : Type} (k : String) : assocGet ([] : List (String × α)) k = none := rfl

theorem assocGet_cons {α : Type} (k' : String) (v' : α) (m : List (String × α)) (k : String) :
    assocGet ((k', v') :: m) k = if k' = k then some v' else assocGet m k := by
  by_cases h : k' = k <;> simp [assocGet, List.find?_cons, h]

theorem mem_assocSet {α : Type} {m : List (String × α)} {k : String} {v : α} {p : String × α}
    (hp : p ∈ assocSet m k v) : p ∈ m ∨ p = (k, v) := by
  induction m with
  | nil => simpa [assocSet] using hp
  | cons q m ih =>
      rw [assocSet] at hp
      by_cases h : q.1 = k
      · simp only [h, if_pos rfl] at hp
        rcases List.mem_cons.mp hp with h1 | h2
        · exact Or.inr h1
        · exact Or.inl (List.mem_cons_of_mem _ h2)
      · simp only [if_neg h] at hp
        rcases List.mem_cons.mp hp with h1 | h2
        · exact Or.inl (h1 ▸ List.mem_cons_self _ _)
        · rcases ih h2 with h3 | h4
          · exact Or.inl (List.mem_cons_of_mem _ h3)
          · exact Or.inr h4

theorem assocSet_of_not_mem {α : Type} {m : List (String × α)} {k : String} (v : α)
    (h : k ∉ m.map Prod.fst) : assocSet m k v = m ++ [(k, v)] := by
  induction m with
  | nil => rfl
  | cons q m ih =>
      simp only [List.map_cons, List.mem_cons] at h
      push_neg at h
      rw [assocSet, if_neg (fun he => h.1 he.symm), ih h.2]
      rfl

theorem mem_keys_assocSet {α : Type} {m : List (String × α)} {k : String} {v : α} {x : String}
    (hx : x ∈ (assocSet m k v).map Prod.fst) : x ∈ m.map Prod.fst ∨ x = k := by
  rcases List.mem_map.mp hx with ⟨p, hp, hpx⟩
  rcases mem_assocSet hp with h1 | h2
  · exact Or.inl (hpx ▸ List.mem_map_of_mem Prod.fst h1)
  · right
    rw [← hpx, h2]

theorem keys_assocSet_nodup {α : Type} {m : List (String × α)} {k : String} {v : α}
    (h : (m.map Prod.fst).Nodup) : ((assocSet m k v).map Prod.fst).Nodup := by
  induction m with
  | nil => simp [assocSet]
  | cons q m ih =>
      rw [List.map_cons, List.nodup_cons] at h
      by_cases hq : q.1 = k
      · rw [assocSet, if_pos hq, List.map_cons, List.nodup_cons]
        exact ⟨fun hc => h.1 (hq ▸ hc), h.2⟩
      · rw [assocSet, if_neg hq, List.map_cons, List.nodup_cons]
        refine ⟨fun hc => ?_, ih h.2⟩
        rcases mem_keys_assocSet hc with h1 | h2
        · exact h.1 h1
        · exact hq h2

theorem assocGet_mem {α : Type} {m : List (String × α)} {k : String} {v : α}
    (h : assocGet m k = some v) : (k, v) ∈ m := by
  rw [assocGet, Option.map_eq_some'] at h
  rcases h with ⟨p, hp, hpv⟩
  have hmem := List.mem_of_find?_eq_some hp
  have hkey := List.find?_some hp
  simp only [decide_eq_true_eq] at hkey
  have : p = (k, v) := by
    rcases p with ⟨a, b⟩
    simp only at hkey hpv
    rw [hkey, hpv]
  exact this ▸ hmem

theorem assocGet_of_mem_nodup {α : Type} {m : List (String × α)} {k : String} {v : α}
    (hm : (k, v) ∈ m) (hnd : (m.map Prod.fst).Nodup) : assocGet m k = some v := by
  induction m with
  | nil => cases hm
  | cons q m ih =>
      rw [List.map_cons, List.nodup_cons] at hnd
      rcases List.mem_cons.mp hm with h1 | h2
      · rw [← h1, assocGet_cons, if_pos rfl]
      · have hk : q.1 ≠ k := by
          intro he
          exact hnd.1 (he ▸ List.mem_map_of_mem Prod.fst h2)
        rcases q with ⟨a, b⟩
        rw [assocGet_cons, if_neg hk, ih h2 hnd.2]

theorem assocGet_eq_none_iff {α : Type} {m : List (String × α)} {k : String} :
    assocGet m k = none ↔ k ∉ m.map Prod.fst := by
  constructor
  · intro h hk
    rcases List.mem_map.mp hk with ⟨p, hp, hpx⟩
    rw [assocGet, Option.map_eq_none', List.find?_eq_none] at h
    exact h p hp (by simpa using hpx)
  · intro h
    rw [assocGet, Option.map_eq_none', List.find?_eq_none]
    intro p hp hpk
    simp only [decide_eq_true_eq] at hpk
    exact h (hpk ▸ List.mem_map_of_mem Prod.fst hp)

/-! ### Structure of the xlf and sheet maps -/

theorem xlfMapOf_invariant (segments : List Segment) :
    ((xlfMapOf segments).map Prod.fst).Nodup ∧
      ∀ p ∈ xlfMapOf segments, p.2 ∈ segments ∧ p.1 = p.2.id := by
  have main : ∀ (xs : List Segment) (m : List (String × Segment)),
      (m.map Prod.fst).Nodup → (∀ p ∈ m, p.1 = p.2.id) →
      ((xs.foldl (fun m seg => assocSet m seg.id seg) m).map Prod.fst).Nodup ∧
        ∀ p ∈ xs.foldl (fun m seg => assocSet m seg.id seg) m,
          (p.2 ∈ xs ∨ p ∈ m) ∧ p.1 = p.2.id := by
    intro xs
    induction xs with
    | nil => exact fun m h1 h2 => ⟨h1, fun p hp => ⟨Or.inr hp, h2 p hp⟩⟩
    | cons x xs ih =>
        intro m h1 h2
        rw [List.foldl_cons]
        have h1' := keys_assocSet_nodup (k := x.id) (v := x) h1
        have h2' : ∀ p ∈ assocSet m x.id x, p.1 = p.2.id := by
          intro p hp
          rcases mem_assocSet hp with hm | he
          · exact h2 p hm
          · rw [he]
        rcases ih (assocSet m x.id x) h1' h2' with ⟨ha, hb⟩
        refine ⟨ha, fun p hp => ?_⟩
        rcases hb p hp with ⟨hc, hd⟩
        refine ⟨?_, hd⟩
        rcases hc with hc | hc
        · exact Or.inl (List.mem_cons_of_mem _ hc)
        · rcases mem_assocSet hc with hm | he
          · exact Or.inr hm
          · exact Or.inl (he ▸ List.mem_cons_self _ _)
  have h := main segments [] (by simp) (by simp)
  rw [xlfMapOf]
  refine ⟨h.1, fun p hp => ?_⟩
  rcases h.2 p hp with ⟨hc, hd⟩
  rcases hc with hc | hc
  · exact ⟨hc, hd⟩
  · cases hc

theorem sheetMapOf_invariant (rows : List Row) :
    ((sheetMapOf rows).map Prod.fst).Nodup ∧
      ∀ p ∈ sheetMapOf rows, p.2 ∈ rows ∧ p.1 = p.2.id ∧ p.1 ≠ "" := by
  have main : ∀ (xs : List Row) (m : List (String × Row)),
      (m.map Prod.fst).Nodup → (∀ p ∈ m, p.1 = p.2.id ∧ p.1 ≠ "") →
      ((xs.foldl (fun m row => if row.id = "" then m else assocSet m row.id row) m).map
        Prod.fst).Nodup ∧
        ∀ p ∈ xs.foldl (fun m row => if row.id = "" then m else assocSet m row.id row) m,
          (p.2 ∈ xs ∨ p ∈ m) ∧ p.1 = p.2.id ∧ p.1 ≠ "" := by
    intro xs
    induction xs with
    | nil => exact fun m h1 h2 => ⟨h1, fun p hp => ⟨Or.inr hp, h2 p hp⟩⟩
    | cons x xs ih =>
        intro m h1 h2
        rw [List.foldl_cons]
        by_cases hx : x.id = ""
        · rw [if_pos hx]
          rcases ih m h1 h2 with ⟨ha, hb⟩
          refine ⟨ha, fun p hp => ?_⟩
          rcases hb p hp with ⟨hc, hd⟩
          refine ⟨?_, hd⟩
          rcases hc with hc | hc
          · exact Or.inl (List.mem_cons_of_mem _ hc)
          · exact Or.inr hc
        · rw [if_neg hx]
          have h1' := keys_assocSet_nodup (k := x.id) (v := x) h1
          have h2' : ∀ p ∈ assocSet m x.id x, p.1 = p.2.id ∧ p.1 ≠ "" := by
            intro p hp
            rcases mem_assocSet hp with hm | he
            · exact h2 p hm
            · rw [he]
              exact ⟨rfl, hx⟩
          rcases ih (assocSet m x.id x) h1' h2' with ⟨ha, hb⟩
          refine ⟨ha, fun p hp => ?_⟩
          rcases hb p hp with ⟨hc, hd⟩
          refine ⟨?_, hd⟩
          rcases hc with hc | hc
          · exact Or.inl (List.mem_cons_of_mem _ hc)
          · rcases mem_assocSet hc with hm | he
            · exact Or.inr hm
            · exact Or.inl (he ▸ List.mem_cons_self _ _)
  have h := main rows [] (by simp) (by simp)
  rw [sheetMapOf]
  refine ⟨h.1, fun p hp => ?_⟩
  rcases h.2 p hp with ⟨hc, hd⟩
  rcases hc with hc | hc
  · exact ⟨hc, hd⟩
  · cases hc

theorem sheetMapOf_eq_map {rows : List Row} (h1 : ∀ r ∈ rows, r.id ≠ "")
    (h2 : (rows.map Row.id).Nodup) : sheetMapOf rows = rows.map (fun r => (r.id, r)) := by
  have main : ∀ (xs : List Row) (m : List (String × Row)),
      (∀ r ∈ xs, r.id ≠ "") → (xs.map Row.id).Nodup →
      (∀ r ∈ xs, r.id ∉ m.map Prod.fst) →
      xs.foldl (fun m row => if row.id = "" then m else assocSet m row.id row) m =
        m ++ xs.map (fun r => (r.id, r)) := by
    intro xs
    induction xs with
    | nil => intro m _ _ _; simp
    | cons x xs ih =>
        intro m hne hnd hdisj
        rw [List.foldl_cons, if_neg (hne x (List.mem_cons_self _ _)),
          assocSet_of_not_mem x (hdisj x (List.mem_cons_self _ _))]
        rw [List.map_cons, List.nodup_cons] at hnd
        rw [ih (m ++ [(x.id, x)]) (fun r hr => hne r (List.mem_cons_of_mem _ hr)) hnd.2]
        · simp
        · intro r hr
          rw [List.map_append, List.mem_append]
          push_neg
          refine ⟨hdisj r (List.mem_cons_of_mem _ hr), ?_⟩
          simp only [List.map_cons, List.map_nil, List.mem_singleton]
          intro he
          exact hnd.1 (he ▸ List.mem_map_of_mem Row.id hr)
  rw [sheetMapOf]
  simpa using main rows [] h1 h2 (by simp)

/-! ### Characterization of the sync loops -/

/-- Which row the first sync loop emits for one xlf-map entry. -/
def processEntry (languageColumns : List String) (sheetMap : List (String × Row))
    (p : String × Segment) : Row :=
  match assocGet sheetMap p.1 with
  | none => newRowOf languageColumns p.2
  | some existingRow =>
      if existingRow.English ≠ p.2.source then updatedRowOf languageColumns existingRow p.2
      else refreshedRowOf existingRow p.2

/-- An xlf-map entry counted by the `added` counter. -/
def entryIsNew (sheetMap : List (String × Row)) (p : String × Segment) : Bool :=
  (assocGet sheetMap p.1).isNone

/-- An xlf-map entry counted by the `updated` counter. -/
def entryIsUpdated (sheetMap : List (String × Row)) (p : String × Segment) : Bool :=
  match assocGet sheetMap p.1 with
  | some existingRow => decide (existingRow.English ≠ p.2.source)
  | none => false

/-- An xlf-map entry counted by the `unchanged` counter. -/
def entryIsUnchanged (sheetMap : List (String × Row)) (p : String × Segment) : Bool :=
  match assocGet sheetMap p.1 with
  | some existingRow => decide (existingRow.English = p.2.source)
  | none => false

theorem foldl_syncStep (cols : List String) (sm : List (String × Row)) :
    ∀ (xm : List (String × Segment)) (out : List Row) (st : Stats),
      xm.foldl (syncStep cols sm) (out, st) =
        (out ++ xm.map (processEntry cols sm),
         { added := st.added + xm.countP (entryIsNew sm)
           updated := st.updated + xm.countP (entryIsUpdated sm)
           unchanged := st.unchanged + xm.countP (entryIsUnchanged sm)
           deactivated := st.deactivated }) := by
  intro xm
  induction xm with
  | nil =>
      intro out st
      simp [List.countP_nil]
  | cons p xm ih =>
      intro out st
      rw [List.foldl_cons]
      rcases hga : assocGet sm p.1 with _ | row
      · have hstep : syncStep cols sm (out, st) p =
            (out ++ [newRowOf cols p.2], { st with added := st.added + 1 }) := by
          simp only [syncStep, hga]
        have hproc : processEntry cols sm p = newRowOf cols p.2 := by
          simp only [processEntry, hga]
        have hnew : entryIsNew sm p = true := by simp [entryIsNew, hga]
        have hupd : entryIsUpdated sm p = false := by simp [entryIsUpdated, hga]
        have hunch : entryIsUnchanged sm p = false := by simp [entryIsUnchanged, hga]
        rw [hstep, ih, Prod.mk.injEq]
        constructor
        · rw [List.map_cons, hproc, List.append_assoc]
          rfl
        · simp [Stats.mk.injEq, List.countP_cons, hnew, hupd, hunch]
          all_goals omega
      · by_cases hch : row.English ≠ p.2.source
        · have hstep : syncStep cols sm (out, st) p =
              (out ++ [updatedRowOf cols row p.2], { st with updated := st.updated + 1 }) := by
            simp only [syncStep, hga]
            rw [if_pos hch]
          have hproc : processEntry cols sm p = updatedRowOf cols row p.2 := by
            simp only [processEntry, hga]
            rw [if_pos hch]
          have hnew : entryIsNew sm p = false := by simp [entryIsNew, hga]
          have hupd : entryIsUpdated sm p = true := by
            simp only [entryIsUpdated, hga]
            simpa using hch
          have hunch : entryIsUnchanged sm p = false := by
            simp only [entryIsUnchanged, hga]
            simpa using hch
          rw [hstep, ih, Prod.mk.injEq]
          constructor
          · rw [List.map_cons, hproc, List.append_assoc]
            rfl
          · simp [Stats.mk.injEq, List.countP_cons, hnew, hupd, hunch]
            all_goals omega
        · have hstep : syncStep cols sm (out, st) p =
              (out ++ [refreshedRowOf row p.2], { st with unchanged := st.unchanged + 1 }) := by
            simp only [syncStep, hga]
            rw [if_neg hch]
          have hproc : processEntry cols sm p = refreshedRowOf row p.2 := by
            simp only [processEntry, hga]
            rw [if_neg hch]
          have hnew : entryIsNew sm p = false := by simp [entryIsNew, hga]
          have hupd : entryIsUpdated sm p = false := by
            simp only [entryIsUpdated, hga]
            simpa using hch
          have hunch : entryIsUnchanged sm p = true := by
            simp only [entryIsUnchanged, hga]
            simpa using hch
          rw [hstep, ih, Prod.mk.injEq]
          constructor
          · rw [List.map_cons, hproc, List.append_assoc]
            rfl
          · simp [Stats.mk.injEq, List.countP_cons, hnew, hupd, hunch]
            all_goals omega

theorem foldl_deactStep (xm : List (String × Segment)) :
    ∀ (sm : List (String × Row)) (out : List Row) (st : Stats),
      sm.foldl (deactStep xm) (out, st) =
        (out ++ (sm.filter (fun p => (assocGet xm p.1).isNone)).map
           (fun p => deactivatedRowOf p.2),
         { st with deactivated :=
             st.deactivated + (sm.filter (fun p => (assocGet xm p.1).isNone)).length }) := by
  intro sm
  induction sm with
  | nil =>
      intro out st
      simp
  | cons p sm ih =>
      intro out st
      rw [List.foldl_cons]
      rcases hga : assocGet xm p.1 with _ | seg
      · have hstep : deactStep xm (out, st) p =
            (out ++ [deactivatedRowOf p.2],
             { st with deactivated := st.deactivated + 1 }) := by
          simp [deactStep, hga]
        have hf : (assocGet xm p.1).isNone = true := by rw [hga]; rfl
        rw [hstep, ih, Prod.mk.injEq]
        constructor
        · rw [List.filter_cons, if_pos hf, List.map_cons, List.append_assoc]
          rfl
        · rw [List.filter_cons, if_pos hf]
          simp [Stats.mk.injEq, List.length_cons]
          all_goals omega
      · have hstep : deactStep xm (out, st) p = (out, st) := by
          simp [deactStep, hga]
        have hf : (assocGet xm p.1).isNone = false := by rw [hga]; rfl
        rw [hstep, ih, List.filter_cons, if_neg (by simp [hf])]

theorem syncXLFtoSheet_eq (segments : List Segment) (sheetData : List Row)
    (cols : List String) :
    syncXLFtoSheet segments sheetData cols =
      ((xlfMapOf segments).map (processEntry cols (sheetMapOf sheetData)) ++
         ((sheetMapOf sheetData).filter
            (fun p => (assocGet (xlfMapOf segments) p.1).isNone)).map
           (fun p => deactivatedRowOf p.2),
       { added := (xlfMapOf segments).countP (entryIsNew (sheetMapOf sheetData))
         updated := (xlfMapOf segments).countP (entryIsUpdated (sheetMapOf sheetData))
         unchanged := (xlfMapOf segments).countP (entryIsUnchanged (sheetMapOf sheetData))
         deactivated := ((sheetMapOf sheetData).filter
           (fun p => (assocGet (xlfMapOf segments) p.1).isNone)).length }) := by
  rw [syncXLFtoSheet, foldl_syncStep, foldl_deactStep]
  simp

/-! ### Further helper lemmas -/

theorem assocGet_assocSet_self {α : Type} (m : List (String × α)) (k : String) (v : α) :
    assocGet (assocSet m k v) k = some v := by
  induction m with
  | nil => simp [assocSet, assocGet_cons]
  | cons q m ih =>
      rw [assocSet]
      by_cases h : q.1 = k
      · rcases q with ⟨a, b⟩
        rw [if_pos h, assocGet_cons, if_pos rfl]
      · rcases q with ⟨a, b⟩
        rw [if_neg h, assocGet_cons, if_neg h, ih]

theorem assocGet_assocSet_ne {α : Type} (m : List (String × α)) (k k' : String) (v : α)
    (h : k ≠ k') : assocGet (assocSet m k v) k' = assocGet m k' := by
  induction m with
  | nil => simp [assocSet, assocGet_cons, h]
  | cons q m ih =>
      rw [assocSet]
      by_cases hq : q.1 = k
      · rcases q with ⟨a, b⟩
        simp only at hq
        rw [if_pos hq, assocGet_cons, if_neg h, assocGet_cons, hq, if_neg h]
      · rcases q with ⟨a, b⟩
        rw [if_neg hq, assocGet_cons, assocGet_cons, ih]

theorem clearLangCols_get : ∀ (cols : List String) (tr : List (String × String)),
    (∀ c ∈ cols, assocGet (clearLangCols tr cols) c = some "") ∧
      (∀ c, c ∉ cols → assocGet (clearLangCols tr cols) c = assocGet tr c)
  | [], tr => ⟨fun c hc => absurd hc (List.not_mem_nil c), fun c _ => rfl⟩
  | c0 :: cols, tr => by
      rw [clearLangCols, List.foldl_cons]
      have ih := clearLangCols_get cols (assocSet tr c0 "")
      rw [clearLangCols] at ih
      constructor
      · intro c hc
        rcases List.mem_cons.mp hc with h1 | h2
        · by_cases hmem : c ∈ cols
          · exact ih.1 c hmem
          · rw [ih.2 c hmem, h1, assocGet_assocSet_self]
        · exact ih.1 c h2
      · intro c hc
        rw [List.mem_cons] at hc
        push_neg at hc
        rw [ih.2 c hc.2, assocGet_assocSet_ne tr c0 c "" (fun he => hc.1 he.symm)]

theorem refreshedRowOf_self {row : Row} {seg : Segment} (h1 : row.maxwidth = seg.maxwidth)
    (h2 : row.sizeUnit = seg.sizeUnit) (h3 : row.active = .bool true) :
    refreshedRowOf row seg = row := by
  cases row
  simp only [refreshedRowOf]
  simp_all

theorem deactivatedRowOf_self {row : Row} (h : row.active = .bool false) :
    deactivatedRowOf row = row := by
  cases row
  simp only [deactivatedRowOf]
  simp_all

/-! ### Claim C6 — lenient active truthiness -/

/-- C6 counterexample: the empty string is neither boolean `false` nor
one of the literal strings `"false"`, `"FALSE"`, `"0"`, yet the export's
active filter treats it as inactive (it is falsy), so the claim as
stated is false at `active = ""`. -/
theorem claim_C6_counterexample :
    JsValue.str "" ≠ .bool false ∧ JsValue.str "" ≠ .str "false" ∧
      JsValue.str "" ≠ .str "FALSE" ∧ JsValue.str "" ≠ .str "0" ∧
      isActiveValue (.str "") = false := by
  refine ⟨?_, ?_, ?_, ?_, ?_⟩ <;> decide

/-- C6 (amended): in the export's active filter, a record's `active`
value passes the liveness filter exactly when it is truthy (so boolean
`false`, the empty string, the number 0 and null are inactive) and is
not one of the literal strings `"false"`, `"FALSE"`, `"0"`. -/
theorem claim_C6_lenient_active (v : JsValue) :
    isActiveValue v = true ↔
      (v.truthy = true ∧ v ≠ .str "false" ∧ v ≠ .str "FALSE" ∧ v ≠ .str "0") := by
  constructor
  · intro h
    by_cases ht : v.truthy = true
    · refine ⟨ht, ?_, ?_, ?_⟩ <;> rintro rfl <;> revert h <;> decide
    · rw [isActiveValue, if_pos (by simpa using ht)] at h
      cases h
  · rintro ⟨ht, h1, h2, h3⟩
    rw [isActiveValue, if_neg (by simp [ht])]
    rw [if_neg ?_]
    rintro (h4 | h4 | h4 | h4)
    · rw [h4] at ht
      cases ht
    · exact h1 h4
    · exact h2 h4
    · exact h3 h4

/-! ### Claim C7 — category derivation -/

theorem splitOnDot_ne_nil : ∀ l : List Char, splitOnDot l ≠ []
  | [] => by simp [splitOnDot]
  | c :: cs => by
      rw [splitOnDot]
      by_cases h : c = '.'
      · simp [h]
      · rw [if_neg h]
        rcases hs : splitOnDot cs with _ | ⟨t, ts⟩
        · exact absurd hs (splitOnDot_ne_nil cs)
        · simp

theorem splitOnDot_head : ∀ l : List Char,
    (splitOnDot l).head? = some (l.takeWhile (fun c => c ≠ '.'))
  | [] => rfl
  | c :: cs => by
      rw [splitOnDot]
      by_cases h : c = '.'
      · rw [if_pos h, List.takeWhile_cons]
        simp [h]
      · rw [if_neg h]
        have ihead := splitOnDot_head cs
        rcases hs : splitOnDot cs with _ | ⟨t, ts⟩
        · exact absurd hs (splitOnDot_ne_nil cs)
        · rw [hs] at ihead
          simp only [List.head?_cons, Option.some.injEq] at ihead
          rw [List.head?_cons, List.takeWhile_cons]
          simp [h, ihead]

/-- C7 counterexample: for the dot-free id `"NoDotHere"` the derived
category is the id itself, not the empty string the claim asserts. -/
theorem claim_C7_counterexample :
    extractCategory "NoDotHere" = "NoDotHere" ∧ "NoDotHere" ≠ "" := by
  constructor <;> decide

/-- C7 (amended): the derived category is the first token of the id
before the first dot (the longest dot-free prefix); for a non-empty id
containing no dot this is the entire id, not the empty string. -/
theorem claim_C7_category_derivation (id : String) :
    extractCategory id = String.mk (id.toList.takeWhile (fun c => c ≠ '.')) ∧
      (id ≠ "" → '.' ∉ id.toList → extractCategory id = id) := by
  have heq : extractCategory id = String.mk (id.toList.takeWhile (fun c => c ≠ '.')) := by
    rw [extractCategory]
    by_cases h : id = ""
    · rw [if_pos h, h]
      rfl
    · rw [if_neg h, splitOnDot_head]
  refine ⟨heq, fun hne hdot => ?_⟩
  rw [heq, List.takeWhile_eq_self_iff.mpr ?_]
  · cases id
    rfl
  · intro c hc
    simp only [decide_eq_true_eq]
    intro he
    exact hdot (he ▸ hc)

/-- C7 witness: the amended theorem applied at the concrete dot-free id
`"Label"`, with both hypotheses of its second part discharged. -/
theorem claim_C7_witness :
    extractCategory "Label" = String.mk ("Label".toList.takeWhile (fun c => c ≠ '.')) ∧
      extractCategory "Label" = "Label" :=
  ⟨(claim_C7_category_derivation "Label").1,
   (claim_C7_category_derivation "Label").2 (by decide) (by decide)⟩

/-! ### Claims C9 and C10 — language registry -/

/-- C9: `getAvailableLanguages` on a present header list returns exactly
the configured language names whose exact string occurs among the store
columns, and the result is a sublist of the configured name list, i.e.
ordered by the registry's configured order. -/
theorem claim_C9_language_intersection (headers : List String) :
    (getAvailableLanguages (some headers)).Sublist (LANGUAGES.map Prod.fst) ∧
      ∀ lang, lang ∈ getAvailableLanguages (some headers) ↔
        (lang ∈ LANGUAGES.map Prod.fst ∧ lang ∈ headers) := by
  constructor
  · exact List.filter_sublist _
  · intro lang
    simp [getAvailableLanguages, List.mem_filter]

/-- C10: calling `getAvailableLanguages` without a header list (the
store schema could not be read) returns the full configured language
list — every configured name, including ones with no store column — and
in particular neither fails nor returns the empty set; it is a superset
of what any concrete header list would produce. -/
theorem claim_C10_fallback_languages :
    getAvailableLanguages none = LANGUAGES.map Prod.fst ∧
      getAvailableLanguages none ≠ [] ∧
      ∀ (headers : List String) (lang : String),
        lang ∈ getAvailableLanguages (some headers) → lang ∈ getAvailableLanguages none := by
  refine ⟨rfl, by decide, fun headers lang hmem => ?_⟩
  rw [getAvailableLanguages]
  exact List.mem_of_mem_filter hmem

/-- C10 witness: the fallback applied at a concrete header list that
lacks most configured languages: `"French"` is available without
headers. -/
theorem claim_C10_witness :
    "French" ∈ getAvailableLanguages (some ["French"]) ∧
      "French" ∈ getAvailableLanguages none :=
  ⟨by decide, (claim_C10_fallback_languages).2.2 ["French"] "French" (by decide)⟩

/-! ### Claim C5 — length-violation exclusion -/

theorem collectUnits_eq (lang : String) : ∀ rows : List Row,
    collectUnits lang rows =
      ((rows.filter (fun r => ! violatesMaxwidth lang r)).map (mkTransUnit lang),
       (rows.filter (fun r => violatesMaxwidth lang r)).map (mkViolation lang))
  | [] => rfl
  | r :: rows => by
      rw [collectUnits, collectUnits_eq lang rows]
      by_cases h : violatesMaxwidth lang r = true
      · rw [if_pos h]
        simp [List.filter_cons, h]
      · rw [if_neg h]
        simp only [Bool.not_eq_true] at h
        simp [List.filter_cons, h]

/-- C5 counterexample: a maxwidth of `"0"` is numeric but not positive,
so by the claim the record should be included; the code nevertheless
excludes it and emits a violation, because the check fires for any
numeric maxwidth value. -/
theorem claim_C5_counterexample :
    (∀ m : Int, jsNumber "0" = some m → ¬ 0 < m) ∧
      exportXLF "Spanish"
        [{ id := "greeting", category := "", maxwidth := "0", sizeUnit := "char",
           English := "Hi", active := .bool true, translations := [("Spanish", "Ho")] }] =
        .ok ([], [{ id := "greeting", value := "Ho", maxwidth := "0" }]) := by
  constructor
  · intro m hm
    have h0 : jsNumber "0" = some 0 := by decide
    rw [h0] at hm
    rw [← Option.some.inj hm]
    decide
  · decide

/-- C5 (amended): for a configured target language the export never
fails: it returns the active rows with a non-empty translation, split
into trans-units and violations by the maxwidth check, each violating
record yielding exactly one violation entry `{id, value, maxwidth}` and
being excluded from the unit sequence; and the check fires exactly when
`maxwidth` is a non-empty numeric string whose numeric value (positive
or not) is strictly below the translation's length. -/
theorem claim_C5_length_violation_exclusion (targetLang code : String) (rows : List Row)
    (hcode : assocGet LANGUAGES targetLang = some code) :
    exportXLF targetLang rows = .ok
      ((((rows.filter (fun r => isActiveValue r.active)).filter
            (fun r => hasNonEmptyTranslation targetLang r)).filter
          (fun r => ! violatesMaxwidth targetLang r)).map (mkTransUnit targetLang),
       (((rows.filter (fun r => isActiveValue r.active)).filter
            (fun r => hasNonEmptyTranslation targetLang r)).filter
          (fun r => violatesMaxwidth targetLang r)).map (mkViolation targetLang)) ∧
      (∀ r : Row, violatesMaxwidth targetLang r = true ↔
        (r.maxwidth ≠ "" ∧ ∃ m, jsNumber r.maxwidth = some m ∧
          ∃ t, r.getLang targetLang = some t ∧ (t.length : Int) > m)) := by
  constructor
  · simp only [exportXLF, hcode]
    rw [collectUnits_eq]
  · intro r
    constructor
    · intro h
      rw [violatesMaxwidth] at h
      by_cases h1 : r.maxwidth ≠ ""
      · rw [if_pos h1] at h
        rcases h2 : jsNumber r.maxwidth with _ | m
        · rw [h2] at h
          cases h
        · rw [h2] at h
          rcases h3 : r.getLang targetLang with _ | t
          · rw [h3] at h
            cases h
          · rw [h3] at h
            exact ⟨h1, m, rfl, t, rfl, by simpa using h⟩
      · rw [if_neg h1] at h
        cases h
    · rintro ⟨h1, m, h2, t, h3, h4⟩
      rw [violatesMaxwidth, if_pos h1, h2, h3]
      simpa using h4

/-- The concrete sheet for the C5 witness: one active French row within
its maxwidth (included), one active French row exceeding it (one
violation), one inactive row and one untranslated row (dropped by the
earlier filters). -/
def c5rows : List Row :=
  [{ id := "a.one", category := "a", maxwidth := "10", sizeUnit := "char",
     English := "Hello", active := .bool true, translations := [("French", "Bonjour")] },
   { id := "a.two", category := "a", maxwidth := "5", sizeUnit := "char",
     English := "Hello world", active := .bool true,
     translations := [("French", "Bonjour tout le monde")] },
   { id := "a.three", category := "a", maxwidth := "5", sizeUnit := "char",
     English := "Bye", active := .bool false, translations := [("French", "Au revoir")] },
   { id := "a.four", category := "a", maxwidth := "5", sizeUnit := "char",
     English := "Hi", active := .bool true, translations := [("French", "")] }]

/-- C5 witness: the amended theorem applied to the concrete language
`"French"` (configured, code `"fr"`) and the concrete sheet `c5rows`,
with the configuration hypothesis discharged. -/
theorem claim_C5_witness :
    assocGet LANGUAGES "French" = some "fr" ∧
      exportXLF "French" c5rows = .ok
        ((((c5rows.filter (fun r => isActiveValue r.active)).filter
              (fun r => hasNonEmptyTranslation "French" r)).filter
            (fun r => ! violatesMaxwidth "French" r)).map (mkTransUnit "French"),
         (((c5rows.filter (fun r => isActiveValue r.active)).filter
              (fun r => hasNonEmptyTranslation "French" r)).filter
            (fun r => violatesMaxwidth "French" r)).map (mkViolation "French")) :=
  ⟨by decide, (claim_C5_length_violation_exclusion "French" "fr" c5rows (by decide)).1⟩

/-! ### Claim C8 — extraction failure modes -/

/-- C8 counterexample: a well-framed `en_US` document containing no
segments at all does not fail — `parseXLF` succeeds with an empty
segment list — contradicting the claim that extraction fails with a
MalformedDocument error when no segments are found. -/
theorem claim_C8_counterexample :
    parseXLF
      { hasXliff := true, hasFile := true, sourceLanguage := some "en_US",
        targetLanguage := none, original := none, body := none } =
      .ok { sourceLanguage := some "en_US", targetLanguage := none, original := none,
            segments := [] } := by
  decide

/-- C8 (amended): extraction fails with the unsupported-source-language
error whenever the document's source-language tag is not `en_US`, and
fails with the malformed-document error exactly when the `xliff` or
`file` element is missing; a well-framed `en_US` document always
succeeds, even with zero segments (an absent body yields the empty
segment list rather than an error). -/
theorem claim_C8_failure_modes (doc : XlfDoc) :
    (doc.hasXliff = true → doc.hasFile = true → doc.sourceLanguage ≠ some "en_US" →
       parseXLF doc = .error ("Invalid source language: " ++
         (doc.sourceLanguage.getD "undefined") ++ ". Only en_US is supported.")) ∧
    (¬ (doc.hasXliff = true ∧ doc.hasFile = true) →
       parseXLF doc = .error "Invalid XLF format: missing xliff or file element") ∧
    (doc.hasXliff = true → doc.hasFile = true → doc.sourceLanguage = some "en_US" →
       ∃ res, parseXLF doc = .ok res ∧ (doc.body = none → res.segments = [])) := by
  refine ⟨fun h1 h2 h3 => ?_, fun h => ?_, fun h1 h2 h3 => ?_⟩
  · rw [parseXLF, if_neg (by simp [h1, h2]), if_pos h3]
  · rw [parseXLF, if_pos (by simpa using h)]
  · rw [parseXLF, if_neg (by simp [h1, h2]), if_neg (by simp [h3])]
    refine ⟨_, rfl, fun hb => ?_⟩
    rw [hb]
    rfl

/-- C8 witness: the amended theorem applied at two concrete documents —
one with source-language `fr_FR` (rejected) and one with a missing
`file` element (rejected as malformed). -/
theorem claim_C8_witness :
    parseXLF
      { hasXliff := true, hasFile := true, sourceLanguage := some "fr_FR",
        targetLanguage := none, original := none, body := none } =
      .error "Invalid source language: fr_FR. Only en_US is supported." ∧
    parseXLF
      { hasXliff := true, hasFile := false, sourceLanguage := some "en_US",
        targetLanguage := none, original := none, body := none } =
      .error "Invalid XLF format: missing xliff or file element" :=
  ⟨(claim_C8_failure_modes _).1 rfl rfl (by decide),
   (claim_C8_failure_modes _).2.1 (by decide)⟩

/-! ### Claims C2, C3, C4 — reconciliation row handling -/

theorem sheetMapOf_get {rows : List Row} {row : Row} (hids : ∀ r ∈ rows, r.id ≠ "")
    (hnd : (rows.map Row.id).Nodup) (hrow : row ∈ rows) :
    assocGet (sheetMapOf rows) row.id = some row := by
  rw [sheetMapOf_eq_map hids hnd]
  have hmem : (row.id, row) ∈ rows.map (fun r => (r.id, r)) := List.mem_map_of_mem _ hrow
  apply assocGet_of_mem_nodup hmem
  rw [List.map_map]
  exact hnd

/-- C2: for an existing record (non-empty unique ids assumed, as the
data model requires) whose id matches an incoming segment with a
different source text, the sync output contains that record with
`English`, `maxwidth`, `size-unit` taken from the segment, `active`
set to true, every language column reset to the empty string (and
non-language columns untouched), and the record's map entry is counted
by the `updated` counter, which counts exactly such entries. -/
theorem claim_C2_source_change (segments : List Segment) (rows : List Row)
    (cols : List String) (row : Row) (seg : Segment)
    (hids : ∀ r ∈ rows, r.id ≠ "") (hnd : (rows.map Row.id).Nodup)
    (hrow : row ∈ rows)
    (hseg : assocGet (xlfMapOf segments) row.id = some seg)
    (hdiff : row.English ≠ seg.source) :
    updatedRowOf cols row seg ∈ (syncXLFtoSheet segments rows cols).1 ∧
      (updatedRowOf cols row seg).English = seg.source ∧
      (updatedRowOf cols row seg).maxwidth = seg.maxwidth ∧
      (updatedRowOf cols row seg).sizeUnit = seg.sizeUnit ∧
      (updatedRowOf cols row seg).active = .bool true ∧
      (∀ c ∈ cols, assocGet (updatedRowOf cols row seg).translations c = some "") ∧
      (∀ c, c ∉ cols → assocGet (updatedRowOf cols row seg).translations c =
        assocGet row.translations c) ∧
      (syncXLFtoSheet segments rows cols).2.updated =
        (xlfMapOf segments).countP (entryIsUpdated (sheetMapOf rows)) ∧
      entryIsUpdated (sheetMapOf rows) (row.id, seg) = true := by
  have hsm : assocGet (sheetMapOf rows) row.id = some row := sheetMapOf_get hids hnd hrow
  have hmem : (row.id, seg) ∈ xlfMapOf segments := assocGet_mem hseg
  have hproc : processEntry cols (sheetMapOf rows) (row.id, seg) = updatedRowOf cols row seg := by
    simp only [processEntry, hsm]
    rw [if_pos hdiff]
  refine ⟨?_, rfl, rfl, rfl, rfl, ?_, ?_, ?_, ?_⟩
  · rw [syncXLFtoSheet_eq]
    apply List.mem_append_left
    rw [← hproc]
    exact List.mem_map_of_mem _ hmem
  · exact fun c hc => (clearLangCols_get cols row.translations).1 c hc
  · exact fun c hc => (clearLangCols_get cols row.translations).2 c hc
  · rw [syncXLFtoSheet_eq]
  · simp [entryIsUpdated, hsm, hdiff]

/-- The concrete pre-existing record of the C2/C4 flavour of tests: a
translated French row. -/
def c2row : Row :=
  { id := "Label.Greeting", category := "Label", maxwidth := "20", sizeUnit := "char",
    English := "Hello", active := .bool true,
    translations := [("French", "Bonjour"), ("legacy", "keepme")] }

/-- The incoming segment for the C2 witness: same id, changed source. -/
def c2seg : Segment :=
  { id := "Label.Greeting", source := "Hi", maxwidth := "10", sizeUnit := "char", note := "" }

/-- C2 witness: the theorem applied to the concrete one-row sheet and
one-segment document with all hypotheses discharged; the French column
is reset while the non-language column is untouched. -/
theorem claim_C2_witness :
    updatedRowOf ["French"] c2row c2seg ∈ (syncXLFtoSheet [c2seg] [c2row] ["French"]).1 ∧
      assocGet (updatedRowOf ["French"] c2row c2seg).translations "French" = some "" ∧
      assocGet (updatedRowOf ["French"] c2row c2seg).translations "legacy" =
        assocGet c2row.translations "legacy" :=
  ⟨(claim_C2_source_change [c2seg] [c2row] ["French"] c2row c2seg (by decide) (by decide)
      (by decide) (by decide) (by decide)).1,
   (claim_C2_source_change [c2seg] [c2row] ["French"] c2row c2seg (by decide) (by decide)
      (by decide) (by decide) (by decide)).2.2.2.2.2.1 "French" (by decide),
   (claim_C2_source_change [c2seg] [c2row] ["French"] c2row c2seg (by decide) (by decide)
      (by decide) (by decide) (by decide)).2.2.2.2.2.2.1 "legacy" (by decide)⟩

/-- C3: a record whose id no incoming segment carries is kept with only
`active` flipped to false — id, English source and all translation
columns untouched — and reconciling the empty segment set against any
sheet (non-empty unique ids) returns exactly the same rows deactivated,
with stats `{added 0, updated 0, unchanged 0, deactivated N}`. -/
theorem claim_C3_soft_delete (segments : List Segment) (rows : List Row) (cols : List String)
    (hids : ∀ r ∈ rows, r.id ≠ "") (hnd : (rows.map Row.id).Nodup) :
    (∀ row ∈ rows, (∀ s ∈ segments, s.id ≠ row.id) →
       deactivatedRowOf row ∈ (syncXLFtoSheet segments rows cols).1 ∧
         (deactivatedRowOf row).active = .bool false ∧
         (deactivatedRowOf row).id = row.id ∧
         (deactivatedRowOf row).English = row.English ∧
         (deactivatedRowOf row).translations = row.translations) ∧
      syncXLFtoSheet [] rows cols =
        (rows.map deactivatedRowOf,
         { added := 0, updated := 0, unchanged := 0, deactivated := rows.length }) := by
  constructor
  · intro row hrow habsent
    have hnone : assocGet (xlfMapOf segments) row.id = none := by
      rw [assocGet_eq_none_iff]
      intro hk
      rcases List.mem_map.mp hk with ⟨p, hp, hpk⟩
      rcases (xlfMapOf_invariant segments).2 p hp with ⟨hseg, hid⟩
      exact habsent p.2 hseg (by rw [← hid, hpk])
    refine ⟨?_, rfl, rfl, rfl, rfl⟩
    rw [syncXLFtoSheet_eq]
    apply List.mem_append_right
    have hpair : (row.id, row) ∈ sheetMapOf rows := by
      rw [sheetMapOf_eq_map hids hnd]
      exact List.mem_map_of_mem _ hrow
    have hfil : (row.id, row) ∈ (sheetMapOf rows).filter
        (fun p => (assocGet (xlfMapOf segments) p.1).isNone) := by
      rw [List.mem_filter]
      exact ⟨hpair, by rw [hnone]; rfl⟩
    exact List.mem_map_of_mem _ hfil
  · rw [syncXLFtoSheet_eq, sheetMapOf_eq_map hids hnd]
    have hfil : (rows.map (fun r => (r.id, r))).filter
        (fun p => (assocGet (xlfMapOf ([] : List Segment)) p.1).isNone) =
        rows.map (fun r => (r.id, r)) :=
      List.filter_eq_self.mpr (fun p _ => rfl)
    rw [hfil, Prod.mk.injEq]
    constructor
    · rw [List.map_map]
      rfl
    · rw [List.length_map]
      rfl

/-- The concrete sheet for the C3 witness: two active translated rows. -/
def c3rows : List Row :=
  [{ id := "Label.One", category := "Label", maxwidth := "", sizeUnit := "",
     English := "One", active := .bool true, translations := [("French", "Un")] },
   { id := "Label.Two", category := "Label", maxwidth := "", sizeUnit := "",
     English := "Two", active := .bool true, translations := [("French", "Deux")] }]

/-- C3 witness: the theorem applied to the concrete two-row sheet with
the empty segment set, hypotheses discharged; both rows survive
deactivated and the counters read `{0,0,0,2}`. -/
theorem claim_C3_witness :
    syncXLFtoSheet [] c3rows ["French"] =
      (c3rows.map deactivatedRowOf,
       { added := 0, updated := 0, unchanged := 0, deactivated := c3rows.length }) :=
  (claim_C3_soft_delete [] c3rows ["French"] (by decide) (by decide)).2

/-- C4: for an existing record (non-empty unique ids assumed) whose id
matches an incoming segment with identical source text, the sync output
contains that record with only `maxwidth`, `size-unit` refreshed and
`active` set to true — its translation columns and source untouched —
and the record's map entry is counted by the `unchanged` counter (not
`updated`), which counts exactly the matched-same-source entries. In
particular an inactive record revived this way keeps its translations. -/
theorem claim_C4_metadata_refresh (segments : List Segment) (rows : List Row)
    (cols : List String) (row : Row) (seg : Segment)
    (hids : ∀ r ∈ rows, r.id ≠ "") (hnd : (rows.map Row.id).Nodup)
    (hrow : row ∈ rows)
    (hseg : assocGet (xlfMapOf segments) row.id = some seg)
    (hsame : row.English = seg.source) :
    refreshedRowOf row seg ∈ (syncXLFtoSheet segments rows cols).1 ∧
      (refreshedRowOf row seg).maxwidth = seg.maxwidth ∧
      (refreshedRowOf row seg).sizeUnit = seg.sizeUnit ∧
      (refreshedRowOf row seg).active = .bool true ∧
      (refreshedRowOf row seg).translations = row.translations ∧
      (refreshedRowOf row seg).English = row.English ∧
      (syncXLFtoSheet segments rows cols).2.unchanged =
        (xlfMapOf segments).countP (entryIsUnchanged (sheetMapOf rows)) ∧
      (syncXLFtoSheet segments rows cols).2.updated =
        (xlfMapOf segments).countP (entryIsUpdated (sheetMapOf rows)) ∧
      entryIsUnchanged (sheetMapOf rows) (row.id, seg) = true ∧
      entryIsUpdated (sheetMapOf rows) (row.id, seg) = false := by
  have hsm : assocGet (sheetMapOf rows) row.id = some row := sheetMapOf_get hids hnd hrow
  have hmem : (row.id, seg) ∈ xlfMapOf segments := assocGet_mem hseg
  have hproc : processEntry cols (sheetMapOf rows) (row.id, seg) = refreshedRowOf row seg := by
    simp only [processEntry, hsm]
    rw [if_neg (by simpa using hsame)]
  refine ⟨?_, rfl, rfl, rfl, rfl, rfl, ?_, ?_, ?_, ?_⟩
  · rw [syncXLFtoSheet_eq]
    apply List.mem_append_left
    rw [← hproc]
    exact List.mem_map_of_mem _ hmem
  · rw [syncXLFtoSheet_eq]
  · rw [syncXLFtoSheet_eq]
  · simp [entryIsUnchanged, hsm, hsame]
  · simp [entryIsUpdated, hsm, hsame]

/-- The deactivated record of the C4 witness: same source will reappear. -/
def c4row : Row :=
  { id := "Label.Greeting", category := "Label", maxwidth := "20", sizeUnit := "char",
    English := "Hello", active := .bool false, translations := [("French", "Bonjour")] }

/-- The incoming segment for the C4 witness: same id and source as the
deactivated `c4row`, fresh metadata. -/
def c4seg : Segment :=
  { id := "Label.Greeting", source := "Hello", maxwidth := "10", sizeUnit := "char", note := "" }

/-- C4 witness: the revival scenario — the theorem applied to the
deactivated `c4row` and the reappearing `c4seg`, hypotheses discharged;
the row comes back active with its French translation intact. -/
theorem claim_C4_witness :
    refreshedRowOf c4row c4seg ∈ (syncXLFtoSheet [c4seg] [c4row] ["French"]).1 ∧
      (refreshedRowOf c4row c4seg).active = .bool true ∧
      (refreshedRowOf c4row c4seg).translations = c4row.translations :=
  ⟨(claim_C4_metadata_refresh [c4seg] [c4row] ["French"] c4row c4seg (by decide) (by decide)
      (by decide) (by decide) (by decide)).1,
   (claim_C4_metadata_refresh [c4seg] [c4row] ["French"] c4row c4seg (by decide) (by decide)
      (by decide) (by decide) (by decide)).2.2.2.1,
   (claim_C4_metadata_refresh [c4seg] [c4row] ["French"] c4row c4seg (by decide) (by decide)
      (by decide) (by decide) (by decide)).2.2.2.2.1⟩

/-! ### Claim C1 — idempotence of the second run -/

theorem processEntry_meta (cols : List String) (sm : List (String × Row))
    (p : String × Segment) :
    (processEntry cols sm p).maxwidth = p.2.maxwidth ∧
      (processEntry cols sm p).sizeUnit = p.2.sizeUnit ∧
      (processEntry cols sm p).active = .bool true := by
  rcases hga : assocGet sm p.1 with _ | row
  · simp only [processEntry, hga]
    exact ⟨rfl, rfl, rfl⟩
  · simp only [processEntry, hga]
    by_cases h : row.English ≠ p.2.source
    · rw [if_pos h]
      exact ⟨rfl, rfl, rfl⟩
    · rw [if_neg h]
      exact ⟨rfl, rfl, rfl⟩

theorem processEntry_id (cols : List String) (sm : List (String × Row))
    (p : String × Segment) (hpid : p.1 = p.2.id) (hsm : ∀ q ∈ sm, q.1 = q.2.id) :
    (processEntry cols sm p).id = p.1 := by
  rcases hga : assocGet sm p.1 with _ | row
  · simp only [processEntry, hga]
    exact hpid.symm
  · have hrid : row.id = p.1 := (hsm (p.1, row) (assocGet_mem hga)).symm
    simp only [processEntry, hga]
    by_cases h : row.English ≠ p.2.source
    · rw [if_pos h]
      exact hrid
    · rw [if_neg h]
      exact hrid

theorem processEntry_English (cols : List String) (sm : List (String × Row))
    (p : String × Segment) :
    (processEntry cols sm p).English = p.2.source := by
  rcases hga : assocGet sm p.1 with _ | row
  · simp only [processEntry, hga]
    rfl
  · simp only [processEntry, hga]
    by_cases h : row.English ≠ p.2.source
    · rw [if_pos h]
      rfl
    · rw [if_neg h]
      push_neg at h
      exact h

theorem countP_entry_partition (sm : List (String × Row)) :
    ∀ xm : List (String × Segment),
      xm.countP (entryIsNew sm) + xm.countP (entryIsUpdated sm) +
        xm.countP (entryIsUnchanged sm) = xm.length
  | [] => rfl
  | p :: xm => by
      have ih := countP_entry_partition sm xm
      rw [List.length_cons]
      rcases hga : assocGet sm p.1 with _ | row
      · rw [List.countP_cons_of_pos _ _ (by simp [entryIsNew, hga]),
          List.countP_cons_of_neg _ _ (by simp [entryIsUpdated, hga]),
          List.countP_cons_of_neg _ _ (by simp [entryIsUnchanged, hga])]
        omega
      · by_cases h : row.English = p.2.source
        · rw [List.countP_cons_of_neg _ _ (by simp [entryIsNew, hga]),
            List.countP_cons_of_neg _ _ (by simp [entryIsUpdated, hga, h]),
            List.countP_cons_of_pos _ _ (by simp [entryIsUnchanged, hga, h])]
          omega
        · rw [List.countP_cons_of_neg _ _ (by simp [entryIsNew, hga]),
            List.countP_cons_of_pos _ _ (by simp [entryIsUpdated, hga, h]),
            List.countP_cons_of_neg _ _ (by simp [entryIsUnchanged, hga, h])]
          omega

theorem sync_output_ids (segments : List Segment) (rows : List Row) (cols : List String)
    (h : ∀ s ∈ segments, s.id ≠ "") :
    ((syncXLFtoSheet segments rows cols).1).map Row.id =
        (xlfMapOf segments).map Prod.fst ++
          ((sheetMapOf rows).filter
            (fun p => (assocGet (xlfMapOf segments) p.1).isNone)).map Prod.fst ∧
      (∀ r ∈ (syncXLFtoSheet segments rows cols).1, r.id ≠ "") ∧
      (((syncXLFtoSheet segments rows cols).1).map Row.id).Nodup := by
  obtain ⟨hxnd, hxinv⟩ := xlfMapOf_invariant segments
  obtain ⟨hsnd, hsinv⟩ := sheetMapOf_invariant rows
  have hids : ((syncXLFtoSheet segments rows cols).1).map Row.id =
      (xlfMapOf segments).map Prod.fst ++
        ((sheetMapOf rows).filter
          (fun p => (assocGet (xlfMapOf segments) p.1).isNone)).map Prod.fst := by
    rw [syncXLFtoSheet_eq, List.map_append, List.map_map, List.map_map]
    congr 1
    · exact List.map_congr_left (fun p hp =>
        processEntry_id cols _ p (hxinv p hp).2 (fun q hq => (hsinv q hq).2.1))
    · exact List.map_congr_left (fun p hp =>
        ((hsinv p (List.mem_of_mem_filter hp)).2.1).symm)
  refine ⟨hids, ?_, ?_⟩
  · intro r hr
    rw [syncXLFtoSheet_eq] at hr
    rcases List.mem_append.mp hr with h1 | h2
    · rcases List.mem_map.mp h1 with ⟨p, hp, hpr⟩
      have hid := processEntry_id cols _ p (hxinv p hp).2 (fun q hq => (hsinv q hq).2.1)
      rw [← hpr, hid, (hxinv p hp).2]
      exact h p.2 (hxinv p hp).1
    · rcases List.mem_map.mp h2 with ⟨q, hq, hqr⟩
      have hinv := (hsinv q (List.mem_of_mem_filter hq)).2
      rw [← hqr]
      have : (deactivatedRowOf q.2).id = q.1 := hinv.1.symm
      rw [this]
      exact hinv.2
  · rw [hids, List.nodup_append]
    refine ⟨hxnd, List.Nodup.sublist (List.Sublist.map _ (List.filter_sublist _)) hsnd, ?_⟩
    intro k hk1 hk2
    rcases List.mem_map.mp hk2 with ⟨q, hq, hqk⟩
    have hpred := (List.mem_filter.mp hq).2
    rw [Option.isNone_iff_eq_none, assocGet_eq_none_iff] at hpred
    exact hpred (hqk ▸ hk1)

/-- C1 counterexample: the claim fails on the code in two independent
ways at concrete inputs. A record whose id is absent from the segments
is counted `deactivated` again on every run (second run has
`deactivated = 1`, not 0), and a segment with an empty id is re-added on
every run (second run has `added = 1`, not 0), because rows with a falsy
id are dropped from the sheet map. -/
theorem claim_C1_counterexample :
    (syncXLFtoSheet []
        (syncXLFtoSheet []
          [{ id := "x", category := "", maxwidth := "", sizeUnit := "",
             English := "Hello", active := .bool true,
             translations := [("French", "Bonjour")] }] ["French"]).1 ["French"]).2.deactivated
        = 1 ∧
      (syncXLFtoSheet [{ id := "", source := "Hi", maxwidth := "", sizeUnit := "", note := "" }]
        (syncXLFtoSheet [{ id := "", source := "Hi", maxwidth := "", sizeUnit := "", note := "" }]
          [] ["French"]).1 ["French"]).2.added = 1 := by
  constructor <;> decide

/-- C1 (amended): provided every incoming segment has a non-empty id,
running the sync a second time with the same segments against the record
set produced by the first run reproduces that record set exactly and
yields `added = 0`, `updated = 0`, every record whose id the segments
carry counted `unchanged` (their total equals the first run's
`added + updated + unchanged`), and `deactivated` equal to the first
run's `deactivated` (each record absent from the segments is counted
deactivated again on every run, not 0 as claimed). -/
theorem claim_C1_idempotence (segments : List Segment) (rows : List Row) (cols : List String)
    (h : ∀ s ∈ segments, s.id ≠ "") :
    (syncXLFtoSheet segments (syncXLFtoSheet segments rows cols).1 cols).1 =
        (syncXLFtoSheet segments rows cols).1 ∧
      (syncXLFtoSheet segments (syncXLFtoSheet segments rows cols).1 cols).2.added = 0 ∧
      (syncXLFtoSheet segments (syncXLFtoSheet segments rows cols).1 cols).2.updated = 0 ∧
      (syncXLFtoSheet segments (syncXLFtoSheet segments rows cols).1 cols).2.unchanged =
        (syncXLFtoSheet segments rows cols).2.added +
          (syncXLFtoSheet segments rows cols).2.updated +
          (syncXLFtoSheet segments rows cols).2.unchanged ∧
      (syncXLFtoSheet segments (syncXLFtoSheet segments rows cols).1 cols).2.deactivated =
        (syncXLFtoSheet segments rows cols).2.deactivated := by
  obtain ⟨hxnd, hxinv⟩ := xlfMapOf_invariant segments
  obtain ⟨hsnd, hsinv⟩ := sheetMapOf_invariant rows
  obtain ⟨hids1, hne1, hnd1⟩ := sync_output_ids segments rows cols h
  have hfirst := syncXLFtoSheet_eq segments rows cols
  have hsecond := syncXLFtoSheet_eq segments (syncXLFtoSheet segments rows cols).1 cols
  have hsm2 : sheetMapOf (syncXLFtoSheet segments rows cols).1 =
      ((syncXLFtoSheet segments rows cols).1).map (fun r => (r.id, r)) :=
    sheetMapOf_eq_map hne1 hnd1
  have hkeys2 : ((((syncXLFtoSheet segments rows cols).1).map
      (fun r => (r.id, r))).map Prod.fst).Nodup := by
    rw [List.map_map]
    exact hnd1
  -- looking up any xlf-map entry in the second run's sheet map finds the
  -- row the first run produced for it
  have hget2 : ∀ p ∈ xlfMapOf segments,
      assocGet (sheetMapOf (syncXLFtoSheet segments rows cols).1) p.1 =
        some (processEntry cols (sheetMapOf rows) p) := by
    intro p hp
    have hidp : (processEntry cols (sheetMapOf rows) p).id = p.1 :=
      processEntry_id cols _ p (hxinv p hp).2 (fun q hq => (hsinv q hq).2.1)
    have hmemA : processEntry cols (sheetMapOf rows) p ∈ (syncXLFtoSheet segments rows cols).1 := by
      rw [syncXLFtoSheet_eq]
      exact List.mem_append_left _ (List.mem_map_of_mem _ hp)
    have hpair : (p.1, processEntry cols (sheetMapOf rows) p) ∈
        ((syncXLFtoSheet segments rows cols).1).map (fun r => (r.id, r)) := by
      have hm : ((processEntry cols (sheetMapOf rows) p).id,
          processEntry cols (sheetMapOf rows) p) ∈
          ((syncXLFtoSheet segments rows cols).1).map (fun r => (r.id, r)) :=
        List.mem_map_of_mem _ hmemA
      rwa [hidp] at hm
    rw [hsm2]
    exact assocGet_of_mem_nodup hpair hkeys2
  -- every xlf-map entry is processed as an unchanged metadata refresh in
  -- the second run, reproducing the first run's row
  have hrefresh : ∀ (sm' : List (String × Row)) (p : String × Segment) (row : Row),
      assocGet sm' p.1 = some row → row.English = p.2.source →
      processEntry cols sm' p = refreshedRowOf row p.2 := by
    intro sm' p row hget hsame
    simp only [processEntry, hget]
    rw [if_neg (by simp [hsame])]
  have hproc2 : ∀ p ∈ xlfMapOf segments,
      processEntry cols (sheetMapOf (syncXLFtoSheet segments rows cols).1) p =
        processEntry cols (sheetMapOf rows) p := by
    intro p hp
    have hmeta := processEntry_meta cols (sheetMapOf rows) p
    have heng := processEntry_English cols (sheetMapOf rows) p
    rw [hrefresh _ p _ (hget2 p hp) heng]
    exact refreshedRowOf_self hmeta.1 hmeta.2.1 hmeta.2.2
  have hnew2 : ∀ p ∈ xlfMapOf segments,
      ¬ entryIsNew (sheetMapOf (syncXLFtoSheet segments rows cols).1) p = true := by
    intro p hp
    simp [entryIsNew, hget2 p hp]
  have hupd2 : ∀ p ∈ xlfMapOf segments,
      ¬ entryIsUpdated (sheetMapOf (syncXLFtoSheet segments rows cols).1) p = true := by
    intro p hp
    simp [entryIsUpdated, hget2 p hp, processEntry_English cols (sheetMapOf rows) p]
  have hunch2 : ∀ p ∈ xlfMapOf segments,
      entryIsUnchanged (sheetMapOf (syncXLFtoSheet segments rows cols).1) p = true := by
    intro p hp
    simp [entryIsUnchanged, hget2 p hp, processEntry_English cols (sheetMapOf rows) p]
  -- the second run's sheet map splits into the processed part and the
  -- deactivated part
  have houtsplit : (syncXLFtoSheet segments rows cols).1 =
      (xlfMapOf segments).map (processEntry cols (sheetMapOf rows)) ++
        ((sheetMapOf rows).filter
          (fun p => (assocGet (xlfMapOf segments) p.1).isNone)).map
          (fun p => deactivatedRowOf p.2) := by
    rw [hfirst]
  -- the second run's deactivation filter keeps exactly the image of the
  -- first run's deactivated rows
  have hnilA : (((xlfMapOf segments).map (processEntry cols (sheetMapOf rows))).map
      (fun r => (r.id, r))).filter
      (fun q => (assocGet (xlfMapOf segments) q.1).isNone) = [] := by
    apply List.filter_eq_nil_iff.mpr
    intro q hq
    rw [List.map_map] at hq
    rcases List.mem_map.mp hq with ⟨p, hp, hpq⟩
    have hidp : (processEntry cols (sheetMapOf rows) p).id = p.1 :=
      processEntry_id cols _ p (hxinv p hp).2 (fun q' hq' => (hsinv q' hq').2.1)
    have hq1 : q.1 = p.1 := by
      rw [← hpq]
      exact hidp
    have hsome : assocGet (xlfMapOf segments) p.1 = some p.2 :=
      assocGet_of_mem_nodup hp hxnd
    simp [hq1, hsome]
  have hselfD : ((((sheetMapOf rows).filter
      (fun p => (assocGet (xlfMapOf segments) p.1).isNone)).map
      (fun p => deactivatedRowOf p.2)).map (fun r => (r.id, r))).filter
      (fun q => (assocGet (xlfMapOf segments) q.1).isNone) =
      (((sheetMapOf rows).filter
        (fun p => (assocGet (xlfMapOf segments) p.1).isNone)).map
        (fun p => deactivatedRowOf p.2)).map (fun r => (r.id, r)) := by
    apply List.filter_eq_self.mpr
    intro q hq
    rw [List.map_map] at hq
    rcases List.mem_map.mp hq with ⟨p, hp, hpq⟩
    have hpmem := List.mem_of_mem_filter hp
    have hpred := (List.mem_filter.mp hp).2
    have hq1 : q.1 = p.1 := by
      rw [← hpq]
      exact ((hsinv p hpmem).2.1).symm
    rw [hq1]
    exact hpred
  have hfilter2 : (sheetMapOf (syncXLFtoSheet segments rows cols).1).filter
      (fun q => (assocGet (xlfMapOf segments) q.1).isNone) =
      (((sheetMapOf rows).filter
        (fun p => (assocGet (xlfMapOf segments) p.1).isNone)).map
        (fun p => deactivatedRowOf p.2)).map (fun r => (r.id, r)) := by
    rw [hsm2]
    rw [show ((syncXLFtoSheet segments rows cols).1).map (fun r => (r.id, r)) =
        ((xlfMapOf segments).map (processEntry cols (sheetMapOf rows))).map
          (fun r => (r.id, r)) ++
          (((sheetMapOf rows).filter
            (fun p => (assocGet (xlfMapOf segments) p.1).isNone)).map
            (fun p => deactivatedRowOf p.2)).map (fun r => (r.id, r)) from by
      rw [houtsplit, List.map_append]]
    rw [List.filter_append, hnilA, hselfD, List.nil_append]
  refine ⟨?_, ?_, ?_, ?_, ?_⟩
  · rw [hsecond]
    show (xlfMapOf segments).map
        (processEntry cols (sheetMapOf (syncXLFtoSheet segments rows cols).1)) ++
        ((sheetMapOf (syncXLFtoSheet segments rows cols).1).filter
          (fun q => (assocGet (xlfMapOf segments) q.1).isNone)).map
          (fun p => deactivatedRowOf p.2) =
      (syncXLFtoSheet segments rows cols).1
    rw [List.map_congr_left hproc2, hfilter2, List.map_map]
    have hDid : (((sheetMapOf rows).filter
        (fun p => (assocGet (xlfMapOf segments) p.1).isNone)).map
        (fun p => deactivatedRowOf p.2)).map
        ((fun q => deactivatedRowOf q.2) ∘ fun r => (r.id, r)) =
        ((sheetMapOf rows).filter
          (fun p => (assocGet (xlfMapOf segments) p.1).isNone)).map
          (fun p => deactivatedRowOf p.2) := by
      refine (List.map_congr_left ?_).trans (List.map_id _)
      intro r hr
      rcases List.mem_map.mp hr with ⟨p', hp', hpr⟩
      show deactivatedRowOf r = r
      rw [← hpr]
      exact deactivatedRowOf_self rfl
    rw [hDid]
    exact houtsplit.symm
  · rw [hsecond]
    exact List.countP_eq_zero.mpr hnew2
  · rw [hsecond]
    exact List.countP_eq_zero.mpr hupd2
  · rw [hsecond]
    conv_rhs => rw [hfirst]
    show (xlfMapOf segments).countP
        (entryIsUnchanged (sheetMapOf (syncXLFtoSheet segments rows cols).1)) =
      (xlfMapOf segments).countP (entryIsNew (sheetMapOf rows)) +
        (xlfMapOf segments).countP (entryIsUpdated (sheetMapOf rows)) +
        (xlfMapOf segments).countP (entryIsUnchanged (sheetMapOf rows))
    rw [List.countP_eq_length.mpr hunch2]
    exact (countP_entry_partition (sheetMapOf rows) (xlfMapOf segments)).symm
  · rw [hsecond]
    conv_rhs => rw [hfirst]
    show ((sheetMapOf (syncXLFtoSheet segments rows cols).1).filter
        (fun q => (assocGet (xlfMapOf segments) q.1).isNone)).length =
      ((sheetMapOf rows).filter
        (fun p => (assocGet (xlfMapOf segments) p.1).isNone)).length
    rw [hfilter2, List.length_map, List.length_map]

/-- The concrete segment for the C1 witness (non-empty id). -/
def c1seg : Segment :=
  { id := "Label.One", source := "One", maxwidth := "10", sizeUnit := "char", note := "" }

/-- The concrete sheet for the C1 witness: one row the segment matches
with a changed source, and one row absent from the segments. -/
def c1rows : List Row :=
  [{ id := "Label.One", category := "Label", maxwidth := "", sizeUnit := "",
     English := "Uno", active := .bool true, translations := [("French", "Un")] },
   { id := "Label.Two", category := "Label", maxwidth := "", sizeUnit := "",
     English := "Two", active := .bool true, translations := [("French", "Deux")] }]

/-- C1 witness: the amended idempotence theorem applied at the concrete
one-segment document and two-row sheet, the non-empty-id hypothesis
discharged. -/
theorem claim_C1_witness :
    (syncXLFtoSheet [c1seg] (syncXLFtoSheet [c1seg] c1rows ["French"]).1 ["French"]).1 =
        (syncXLFtoSheet [c1seg] c1rows ["French"]).1 ∧
      (syncXLFtoSheet [c1seg] (syncXLFtoSheet [c1seg] c1rows ["French"]).1 ["French"]).2.added = 0 ∧
      (syncXLFtoSheet [c1seg] (syncXLFtoSheet [c1seg] c1rows ["French"]).1 ["French"]).2.updated
        = 0 ∧
      (syncXLFtoSheet [c1seg] (syncXLFtoSheet [c1seg] c1rows ["French"]).1 ["French"]).2.unchanged
        = (syncXLFtoSheet [c1seg] c1rows ["French"]).2.added +
            (syncXLFtoSheet [c1seg] c1rows ["French"]).2.updated +
            (syncXLFtoSheet [c1seg] c1rows ["French"]).2.unchanged ∧
      (syncXLFtoSheet [c1seg] (syncXLFtoSheet [c1seg] c1rows ["French"]).1
          ["French"]).2.deactivated =
        (syncXLFtoSheet [c1seg] c1rows ["French"]).2.deactivated :=
  claim_C1_idempotence [c1seg] c1rows ["French"] (by decide)

end XlfGen
